import Mathlib

/-!
Verification of the highlight-pulldown transform (src/src/lib.rs).

The library exposes one function, highlight, which walks a stream of
pulldown-cmark events once, buffering the text inside a code block and
replacing each Start..End code-block span with a single Html event produced
by the external rendering engine (syntect, highlighted_html_for_string).
All other events pass through unchanged.

Shallow embedding choices:
- Events are a sum type: the code only pattern-matches on
  Start(Tag::CodeBlock(kind)), End(Tag::CodeBlock(_)), Text and Html, and
  forwards every remaining event through the catch-all arm; those remaining
  events are modelled by an opaque Other payload.
- The syntax registry (SyntaxSet) is a structure with the two operations the
  code calls: find_syntax_by_token and find_syntax_plain_text. Syntax
  definitions and themes are opaque type parameters.
- The rendering engine highlighted_html_for_string is an explicit function
  parameter returning Except, mirroring its Result type in Rust.
- A Rust panic (the unmatched EndCodeBlock branch) is a third outcome,
  HResult.fatal, distinct from the recoverable Except-style error.
-/

namespace HighlightPulldown

/-- The kind carried by a code-block tag: Fenced with a language token, or
Indented (pulldown_cmark::CodeBlockKind). -/
inductive CodeBlockKind where
  | Fenced (lang : String)
  | Indented
deriving DecidableEq, Repr

/-- Document events, as the transform distinguishes them. Start and End model
Start(Tag::CodeBlock(kind)) and End(Tag::CodeBlock(kind)); Text and Html model
the corresponding pulldown_cmark events; Other is the opaque catch-all for
every event the transform forwards without inspection. -/
inductive Event where
  | Start (kind : CodeBlockKind)
  | End (kind : CodeBlockKind)
  | Text (t : String)
  | Html (s : String)
  | Other (payload : Nat)
deriving DecidableEq, Repr

/-- The two operations of syntect SyntaxSet that the code calls. The type of
syntax definitions is an opaque parameter sigma. -/
structure SyntaxSet (sigma : Type) where
  find_syntax_by_token : String → Option sigma
  find_syntax_plain_text : sigma

/-- The error enum of lib.rs: InvalidTheme(String) and
HighlightError(syntect::Error), with the engine error type opaque. -/
inductive Error (eps : Type) where
  | InvalidTheme (name : String)
  | HighlightError (e : eps)
deriving DecidableEq, Repr

/-- Outcome of one call of highlight: a normal Ok with the output events, a
returned error value, or a process abort (the Rust panic). -/
inductive HResult (eps : Type) where
  | ok (events : List Event)
  | err (e : Error eps)
  | fatal
deriving DecidableEq, Repr

/-- The type of the external rendering engine
highlighted_html_for_string(text, syntax_set, syntax, theme). -/
def Render (sigma theta eps : Type) : Type :=
  String → SyntaxSet sigma → sigma → theta → Except eps String

/-- The update of the selected syntax performed at Start(Tag::CodeBlock(kind)):
for a Fenced token, find_syntax_by_token(lang).unwrap_or(current); for
Indented, the current selection is kept. -/
def resolveKind {sigma : Type} (ss : SyntaxSet sigma) (cur : sigma) :
    CodeBlockKind → sigma
  | CodeBlockKind.Fenced lang => (ss.find_syntax_by_token lang).getD cur
  | CodeBlockKind.Indented => cur

/-- The event loop of highlight (lib.rs lines 118-150), with the mutable state
(in_code_block, syntax, to_highlight, out_events) passed explicitly. -/
def highlightGo {sigma theta eps : Type} (render : Render sigma theta eps)
    (ss : SyntaxSet sigma) (theme : theta) (inB : Bool) (syn : sigma)
    (buf : String) (acc : List Event) : List Event → HResult eps
  | [] => HResult.ok acc
  | Event.Start kind :: rest =>
      highlightGo render ss theme true (resolveKind ss syn kind) buf acc rest
  | Event.End _ :: rest =>
      if inB then
        match render buf ss syn theme with
        | Except.ok html =>
            highlightGo render ss theme false syn ""
              (acc ++ [Event.Html html]) rest
        | Except.error e => HResult.err (Error.HighlightError e)
      else HResult.fatal
  | Event.Text t :: rest =>
      if inB then highlightGo render ss theme inB syn (buf ++ t) acc rest
      else highlightGo render ss theme inB syn buf (acc ++ [Event.Text t]) rest
  | Event.Html s :: rest =>
      highlightGo render ss theme inB syn buf (acc ++ [Event.Html s]) rest
  | Event.Other p :: rest =>
      highlightGo render ss theme inB syn buf (acc ++ [Event.Other p]) rest

/-- The public entry point highlight (lib.rs lines 103-153): state starts as
in_code_block = false, syntax = find_syntax_plain_text, empty buffer, empty
output. -/
def highlight {sigma theta eps : Type} (render : Render sigma theta eps)
    (ss : SyntaxSet sigma) (theme : theta) (events : List Event) :
    HResult eps :=
  highlightGo render ss theme false ss.find_syntax_plain_text "" [] events

/-- An event is a code-block delimiter when it opens or closes a code block. -/
def isCodeBlockDelim : Event → Bool
  | Event.Start _ => true
  | Event.End _ => true
  | _ => false

/-- A sequence is code free when it contains no code-block delimiter. -/
def codeFree (es : List Event) : Bool :=
  es.all fun e => !isCodeBlockDelim e

/-- Concatenation of text fragments in stream order, as the repeated
to_highlight.push_str calls build it. -/
def concatTexts (ts : List String) : String :=
  ts.foldl (fun a b => a ++ b) ""

/-- Well-formedness scan: starting from the given open-block flag, every End
event occurs while a block is open. This mirrors exactly how the loop updates
in_code_block, so it characterises the inputs on which the panic branch is
unreachable. -/
def noUnmatchedEnd : Bool → List Event → Bool
  | _, [] => true
  | _, Event.Start _ :: rest => noUnmatchedEnd true rest
  | inB, Event.End _ :: rest => inB && noUnmatchedEnd false rest
  | inB, Event.Text _ :: rest => noUnmatchedEnd inB rest
  | inB, Event.Html _ :: rest => noUnmatchedEnd inB rest
  | inB, Event.Other _ :: rest => noUnmatchedEnd inB rest

/-- One code-free segment followed by one code block, the building unit of a
well-formed multi-block document. -/
structure Seg where
  seg : List Event
  startK : CodeBlockKind
  endK : CodeBlockKind
  ts : List String

/-- The events of one code block: a start, its interior Text fragments, and
an end. -/
def mkBlock (k ek : CodeBlockKind) (ts : List String) : List Event :=
  Event.Start k :: (ts.map Event.Text ++ [Event.End ek])

/-- A well-formed document: segments alternating with code blocks, then a
trailing code-free segment. -/
def mkDoc : List Seg → List Event → List Event
  | [], tail => tail
  | s :: rest, tail => s.seg ++ (mkBlock s.startK s.endK s.ts ++ mkDoc rest tail)

/-- The expected output shape of a well-formed document: each segment
unchanged, one Html event per code block, the trailing segment unchanged. -/
def mkOut : List (List Event) → List String → List Event → List Event
  | s :: rest, h :: hs, tail => s ++ Event.Html h :: mkOut rest hs tail
  | _, _, tail => tail

/-- A concrete two-entry registry used to instantiate the general theorems:
it resolves the token python and nothing else, with a distinguishable
plain-text default. -/
def demoSS : SyntaxSet String where
  find_syntax_by_token := fun t => if t = "python" then some "python-def" else none
  find_syntax_plain_text := "plain-def"

/-- A concrete always-succeeding engine that records which syntax definition
it was called with, so leakage of the selected syntax is observable. -/
def demoRender : Render String Nat Nat :=
  fun buf _ syn _ => Except.ok ("<pre>" ++ syn ++ ":" ++ buf ++ "</pre>")

/-- A concrete always-failing engine, used to observe the error path. -/
def failRender : Render String Nat Nat :=
  fun _ _ _ _ => Except.error 42

/-- Two sequential code blocks: the first resolves python, the second carries
a token absent from the registry. -/
def leakInput : List Event :=
  [Event.Start (CodeBlockKind.Fenced "python"),
   Event.End (CodeBlockKind.Fenced "python"),
   Event.Start (CodeBlockKind.Fenced "zzz"),
   Event.Text "x=1",
   Event.End (CodeBlockKind.Fenced "zzz")]

section Lemmas

variable {sigma theta eps : Type} (render : Render sigma theta eps)
variable (ss : SyntaxSet sigma) (theme : theta)

/-- Step equation: end of input returns the accumulated output. -/
theorem go_nil (inB : Bool) (syn : sigma) (buf : String) (acc : List Event) :
    highlightGo render ss theme inB syn buf acc [] = HResult.ok acc := rfl

/-- Step equation: a code-block start resolves the syntax and opens the
block. -/
theorem go_start (inB : Bool) (syn : sigma) (buf : String) (acc : List Event)
    (kind : CodeBlockKind) (rest : List Event) :
    highlightGo render ss theme inB syn buf acc (Event.Start kind :: rest)
      = highlightGo render ss theme true (resolveKind ss syn kind) buf acc
          rest := rfl

/-- Step equation: a code-block end inside an open block runs the engine on
the buffer. -/
theorem go_end_true (syn : sigma) (buf : String) (acc : List Event)
    (k : CodeBlockKind) (rest : List Event) :
    highlightGo render ss theme true syn buf acc (Event.End k :: rest)
      = match render buf ss syn theme with
        | Except.ok html =>
            highlightGo render ss theme false syn ""
              (acc ++ [Event.Html html]) rest
        | Except.error e => HResult.err (Error.HighlightError e) := rfl

/-- Step equation: a code-block end with no open block aborts the process. -/
theorem go_end_false (syn : sigma) (buf : String) (acc : List Event)
    (k : CodeBlockKind) (rest : List Event) :
    highlightGo render ss theme false syn buf acc (Event.End k :: rest)
      = HResult.fatal := rfl

/-- Step equation: text inside an open block is buffered. -/
theorem go_text_true (syn : sigma) (buf : String) (acc : List Event)
    (t : String) (rest : List Event) :
    highlightGo render ss theme true syn buf acc (Event.Text t :: rest)
      = highlightGo render ss theme true syn (buf ++ t) acc rest := rfl

/-- Step equation: text outside a block passes through. -/
theorem go_text_false (syn : sigma) (buf : String) (acc : List Event)
    (t : String) (rest : List Event) :
    highlightGo render ss theme false syn buf acc (Event.Text t :: rest)
      = highlightGo render ss theme false syn buf (acc ++ [Event.Text t])
          rest := rfl

/-- Step equation: an Html event passes through. -/
theorem go_html (inB : Bool) (syn : sigma) (buf : String) (acc : List Event)
    (s : String) (rest : List Event) :
    highlightGo render ss theme inB syn buf acc (Event.Html s :: rest)
      = highlightGo render ss theme inB syn buf (acc ++ [Event.Html s])
          rest := rfl

/-- Step equation: an uninterpreted event passes through. -/
theorem go_other (inB : Bool) (syn : sigma) (buf : String) (acc : List Event)
    (p : Nat) (rest : List Event) :
    highlightGo render ss theme inB syn buf acc (Event.Other p :: rest)
      = highlightGo render ss theme inB syn buf (acc ++ [Event.Other p])
          rest := rfl

/-- Outside a code block, a code-free segment is copied to the output and the
rest of the state is untouched. -/
theorem go_passthrough :
    ∀ (seg : List Event), codeFree seg = true →
    ∀ (syn : sigma) (buf : String) (acc rest : List Event),
      highlightGo render ss theme false syn buf acc (seg ++ rest)
        = highlightGo render ss theme false syn buf (acc ++ seg) rest := by
  intro seg
  induction seg with
  | nil => intro _ syn buf acc rest; simp
  | cons e es ih =>
    intro h syn buf acc rest
    simp only [codeFree, List.all_cons, Bool.and_eq_true, Bool.not_eq_true'] at h
    obtain ⟨he, hes⟩ := h
    have hes' : codeFree es = true := by simpa [codeFree] using hes
    cases e with
    | Start k => simp [isCodeBlockDelim] at he
    | End k => simp [isCodeBlockDelim] at he
    | Text t =>
      rw [List.cons_append, go_text_false, ih hes']
      simp
    | Html s =>
      rw [List.cons_append, go_html, ih hes']
      simp
    | Other p =>
      rw [List.cons_append, go_other, ih hes']
      simp

/-- Inside a code block, a run of Text events is appended to the buffer in
order and nothing is emitted. -/
theorem go_texts :
    ∀ (ts : List String) (syn : sigma) (buf : String) (acc rest : List Event),
      highlightGo render ss theme true syn buf acc (ts.map Event.Text ++ rest)
        = highlightGo render ss theme true syn
            (ts.foldl (fun a b => a ++ b) buf) acc rest := by
  intro ts
  induction ts with
  | nil => intro syn buf acc rest; simp
  | cons t ts ih =>
    intro syn buf acc rest
    rw [List.map_cons, List.cons_append, go_text_true, ih]
    rfl

/-- A full code-block span starting outside a block, when the engine succeeds
on the concatenated fragments: one Html event is emitted, the buffer is
cleared, and the resolved syntax is kept for the continuation. -/
theorem go_block_ok (k ek : CodeBlockKind) (ts : List String) (syn : sigma)
    (acc rest : List Event) (html : String)
    (hr : render (concatTexts ts) ss (resolveKind ss syn k) theme
            = Except.ok html) :
    highlightGo render ss theme false syn "" acc
        (Event.Start k :: (ts.map Event.Text ++ (Event.End ek :: rest)))
      = highlightGo render ss theme false (resolveKind ss syn k) ""
          (acc ++ [Event.Html html]) rest := by
  rw [go_start, go_texts, go_end_true]
  have hc : (ts.foldl (fun a b => a ++ b) "") = concatTexts ts := rfl
  rw [hc, hr]

/-- A full code-block span starting outside a block, when the engine fails on
the concatenated fragments: the whole transform stops with the wrapped
engine error. -/
theorem go_block_err (k ek : CodeBlockKind) (ts : List String) (syn : sigma)
    (acc rest : List Event) (e : eps)
    (hr : render (concatTexts ts) ss (resolveKind ss syn k) theme
            = Except.error e) :
    highlightGo render ss theme false syn "" acc
        (Event.Start k :: (ts.map Event.Text ++ (Event.End ek :: rest)))
      = HResult.err (Error.HighlightError e) := by
  rw [go_start, go_texts, go_end_true]
  have hc : (ts.foldl (fun a b => a ++ b) "") = concatTexts ts := rfl
  rw [hc, hr]

/-- Running the loop outside a block on a code-free remainder returns the
output extended with that remainder. -/
theorem go_finish (seg : List Event) (h : codeFree seg = true) (syn : sigma)
    (buf : String) (acc : List Event) :
    highlightGo render ss theme false syn buf acc seg
      = HResult.ok (acc ++ seg) := by
  have h2 := go_passthrough render ss theme seg h syn buf acc []
  rw [List.append_nil] at h2
  rw [h2, go_nil]

/-- When a kind carries no token resolvable in the registry, resolveKind
keeps the current selection. -/
theorem resolveKind_keep (cur : sigma) (k : CodeBlockKind)
    (hk : ∀ lang, k = CodeBlockKind.Fenced lang →
            ss.find_syntax_by_token lang = none) :
    resolveKind ss cur k = cur := by
  cases k with
  | Fenced lang => simp [resolveKind, hk lang rfl]
  | Indented => rfl

/-- The loop never reaches the panic branch on a well-formed remainder. -/
theorem go_no_fatal :
    ∀ (events : List Event) (inB : Bool) (syn : sigma) (buf : String)
      (acc : List Event), noUnmatchedEnd inB events = true →
      highlightGo render ss theme inB syn buf acc events ≠ HResult.fatal := by
  intro events
  induction events with
  | nil =>
    intro inB syn buf acc _
    rw [go_nil]
    exact fun h => HResult.noConfusion h
  | cons e rest ih =>
    intro inB syn buf acc hwf
    cases e with
    | Start kind =>
      rw [go_start]
      exact ih true _ _ _ (by simpa [noUnmatchedEnd] using hwf)
    | End k =>
      have h1 : inB = true ∧ noUnmatchedEnd false rest = true := by
        simpa [noUnmatchedEnd, Bool.and_eq_true] using hwf
      obtain ⟨hin, hrest⟩ := h1
      subst hin
      rw [go_end_true]
      cases hre : render buf ss syn theme with
      | ok html =>
        simpa using ih false syn "" (acc ++ [Event.Html html]) hrest
      | error e =>
        simp
    | Text t =>
      have hrest : noUnmatchedEnd inB rest = true := by
        simpa [noUnmatchedEnd] using hwf
      cases inB with
      | true => rw [go_text_true]; exact ih true _ _ _ hrest
      | false => rw [go_text_false]; exact ih false _ _ _ hrest
    | Html s =>
      rw [go_html]
      exact ih inB _ _ _ (by simpa [noUnmatchedEnd] using hwf)
    | Other p =>
      rw [go_other]
      exact ih inB _ _ _ (by simpa [noUnmatchedEnd] using hwf)

/-- The loop never produces the InvalidTheme error variant. -/
theorem go_no_invalid_theme :
    ∀ (events : List Event) (inB : Bool) (syn : sigma) (buf : String)
      (acc : List Event) (name : String),
      highlightGo render ss theme inB syn buf acc events
        ≠ HResult.err (Error.InvalidTheme name) := by
  intro events
  induction events with
  | nil =>
    intro inB syn buf acc name
    rw [go_nil]
    exact fun h => HResult.noConfusion h
  | cons e rest ih =>
    intro inB syn buf acc name
    cases e with
    | Start kind => rw [go_start]; exact ih true _ _ _ name
    | End k =>
      cases inB with
      | false =>
        rw [go_end_false]
        exact fun h => HResult.noConfusion h
      | true =>
        rw [go_end_true]
        cases hre : render buf ss syn theme with
        | ok html => simpa using ih false syn "" (acc ++ [Event.Html html]) name
        | error e => simp
    | Text t =>
      cases inB with
      | true => rw [go_text_true]; exact ih true _ _ _ name
      | false => rw [go_text_false]; exact ih false _ _ _ name
    | Html s => rw [go_html]; exact ih inB _ _ _ name
    | Other p => rw [go_other]; exact ih inB _ _ _ name

/-- The kind argument of an End event never influences the remainder of the
run, from any loop state. -/
theorem go_end_kind :
    ∀ (pre : List Event) (inB : Bool) (syn : sigma) (buf : String)
      (acc : List Event) (k1 k2 : CodeBlockKind) (post : List Event),
      highlightGo render ss theme inB syn buf acc (pre ++ Event.End k1 :: post)
        = highlightGo render ss theme inB syn buf acc
            (pre ++ Event.End k2 :: post) := by
  intro pre
  induction pre with
  | nil => intro inB syn buf acc k1 k2 post; rfl
  | cons e es ih =>
    intro inB syn buf acc k1 k2 post
    cases e with
    | Start kind =>
      rw [List.cons_append, List.cons_append, go_start, go_start, ih]
    | End k =>
      cases inB with
      | false => rw [List.cons_append, List.cons_append, go_end_false, go_end_false]
      | true =>
        rw [List.cons_append, List.cons_append, go_end_true, go_end_true]
        cases hre : render buf ss syn theme with
        | ok html => exact ih _ _ _ _ _ _ _
        | error e => rfl
    | Text t =>
      cases inB with
      | true => rw [List.cons_append, List.cons_append, go_text_true, go_text_true, ih]
      | false => rw [List.cons_append, List.cons_append, go_text_false, go_text_false, ih]
    | Html s =>
      rw [List.cons_append, List.cons_append, go_html, go_html, ih]
    | Other p =>
      rw [List.cons_append, List.cons_append, go_other, go_other, ih]

/-- On a well-formed alternating document, an Ok run produces exactly the
segments unchanged with one Html event per block. -/
theorem go_doc :
    ∀ (parts : List Seg) (tail : List Event),
      (∀ s ∈ parts, codeFree s.seg = true) → codeFree tail = true →
      ∀ (syn : sigma) (acc out : List Event),
        highlightGo render ss theme false syn "" acc (mkDoc parts tail)
          = HResult.ok out →
        ∃ htmls : List String, htmls.length = parts.length ∧
          out = acc ++ mkOut (parts.map Seg.seg) htmls tail := by
  intro parts
  induction parts with
  | nil =>
    intro tail _ htail syn acc out h
    rw [mkDoc, go_finish render ss theme tail htail] at h
    refine ⟨[], rfl, ?_⟩
    have hout : acc ++ tail = out := by
      injection h with h2
    rw [← hout]
    rfl
  | cons s rest ih =>
    intro tail hparts htail syn acc out h
    rw [mkDoc, go_passthrough render ss theme s.seg (hparts s (by simp))] at h
    have hshape : mkBlock s.startK s.endK s.ts ++ mkDoc rest tail
        = Event.Start s.startK ::
            (s.ts.map Event.Text ++ (Event.End s.endK :: mkDoc rest tail)) := by
      simp [mkBlock]
    rw [hshape] at h
    cases hre : render (concatTexts s.ts) ss (resolveKind ss syn s.startK) theme with
    | error e =>
      rw [go_block_err render ss theme s.startK s.endK s.ts syn _ _ e hre] at h
      exact absurd h (by simp)
    | ok html =>
      rw [go_block_ok render ss theme s.startK s.endK s.ts syn _ _ html hre] at h
      obtain ⟨htmls, hlen, hout⟩ :=
        ih tail (fun x hx => hparts x (by simp [hx])) htail _ _ _ h
      refine ⟨html :: htmls, by simp [hlen], ?_⟩
      rw [hout]
      simp [mkOut]

/-- A single code block surrounded by code-free context: the span collapses
to one Html event carrying the engine output for the concatenated interior
fragments under the syntax resolved at the Start event. -/
theorem highlight_single_block (pre post : List Event)
    (hpre : codeFree pre = true) (hpost : codeFree post = true)
    (kind ek : CodeBlockKind) (ts : List String) (html : String)
    (hr : render (concatTexts ts) ss
            (resolveKind ss ss.find_syntax_plain_text kind) theme
          = Except.ok html) :
    highlight render ss theme
        (pre ++ Event.Start kind ::
          (ts.map Event.Text ++ (Event.End ek :: post)))
      = HResult.ok (pre ++ Event.Html html :: post) := by
  unfold highlight
  rw [go_passthrough render ss theme pre hpre,
      go_block_ok render ss theme kind ek ts _ _ _ html hr,
      go_finish render ss theme post hpost]
  simp

/-- Claim C1: in a well-formed sequence with exactly one code block whose
interior Text events carry the fragments ts, the whole Start..End span is
replaced by exactly one Html event whose payload is the engine rendering of
the concatenation of ts under the selected syntax and theme; nothing is
emitted for the Start, the interior Text events, or the End themselves. -/
theorem C1_substitution (pre post : List Event)
    (hpre : codeFree pre = true) (hpost : codeFree post = true)
    (kind ek : CodeBlockKind) (ts : List String) (html : String)
    (hr : render (concatTexts ts) ss
            (resolveKind ss ss.find_syntax_plain_text kind) theme
          = Except.ok html) :
    highlight render ss theme
        (pre ++ Event.Start kind ::
          (ts.map Event.Text ++ (Event.End ek :: post)))
      = HResult.ok (pre ++ Event.Html html :: post) :=
  highlight_single_block render ss theme pre post hpre hpost kind ek ts html hr

/-- Claim C2, amended: the selected syntax persists across sequential code
blocks. When the second block carries a token absent from the registry (or
is indented), it is highlighted with the syntax resolved for the first
block, not with the plain-text default: the selection leaks. -/
theorem C2_amended_leak (pre mid post : List Event)
    (hpre : codeFree pre = true) (hmid : codeFree mid = true)
    (hpost : codeFree post = true) (k1 ek1 k2 ek2 : CodeBlockKind)
    (ts1 ts2 : List String)
    (hk2 : ∀ lang, k2 = CodeBlockKind.Fenced lang →
             ss.find_syntax_by_token lang = none)
    (h1 h2 : String)
    (hr1 : render (concatTexts ts1) ss
             (resolveKind ss ss.find_syntax_plain_text k1) theme
           = Except.ok h1)
    (hr2 : render (concatTexts ts2) ss
             (resolveKind ss ss.find_syntax_plain_text k1) theme
           = Except.ok h2) :
    highlight render ss theme
        (pre ++ Event.Start k1 ::
          (ts1.map Event.Text ++ (Event.End ek1 ::
            (mid ++ Event.Start k2 ::
              (ts2.map Event.Text ++ (Event.End ek2 :: post))))))
      = HResult.ok (pre ++ Event.Html h1 ::
          (mid ++ Event.Html h2 :: post)) := by
  unfold highlight
  rw [go_passthrough render ss theme pre hpre,
      go_block_ok render ss theme k1 ek1 ts1 _ _ _ h1 hr1,
      go_passthrough render ss theme mid hmid]
  have hr2' : render (concatTexts ts2) ss
      (resolveKind ss (resolveKind ss ss.find_syntax_plain_text k1) k2) theme
      = Except.ok h2 := by
    rw [resolveKind_keep ss _ k2 hk2]
    exact hr2
  rw [go_block_ok render ss theme k2 ek2 ts2 _ _ _ h2 hr2',
      go_finish render ss theme post hpost]
  simp

/-- Claim C3: a single Fenced block whose language token is absent from the
registry does not fail; it is highlighted with the plain-text default
syntax definition. -/
theorem C3_fallback (pre post : List Event)
    (hpre : codeFree pre = true) (hpost : codeFree post = true)
    (lang : String) (hmiss : ss.find_syntax_by_token lang = none)
    (ek : CodeBlockKind) (ts : List String) (html : String)
    (hr : render (concatTexts ts) ss ss.find_syntax_plain_text theme
          = Except.ok html) :
    highlight render ss theme
        (pre ++ Event.Start (CodeBlockKind.Fenced lang) ::
          (ts.map Event.Text ++ (Event.End ek :: post)))
      = HResult.ok (pre ++ Event.Html html :: post) := by
  have hr' : render (concatTexts ts) ss
      (resolveKind ss ss.find_syntax_plain_text (CodeBlockKind.Fenced lang))
      theme = Except.ok html := by
    rw [resolveKind_keep ss _ _ (fun l hl => by
      injection hl with h
      rw [← h]
      exact hmiss)]
    exact hr
  exact highlight_single_block render ss theme pre post hpre hpost
    (CodeBlockKind.Fenced lang) ek ts html hr'

/-- Claim C4: on an input with no code-block start or end events, the
transform is the identity, returning Ok of the very same event list. -/
theorem C4_passthrough (events : List Event) (h : codeFree events = true) :
    highlight render ss theme events = HResult.ok events := by
  unfold highlight
  rw [go_finish render ss theme events h]
  simp

/-- Claim C5: on a well-formed document of code-free segments alternating
with code blocks, every successful run returns exactly the segments
unchanged and in order, with one Html event in place of each block: events
outside code-block spans are never merged, altered, or dropped. -/
theorem C5_frame (parts : List Seg) (tail : List Event)
    (hparts : ∀ s ∈ parts, codeFree s.seg = true)
    (htail : codeFree tail = true) (out : List Event)
    (h : highlight render ss theme (mkDoc parts tail) = HResult.ok out) :
    ∃ htmls : List String, htmls.length = parts.length ∧
      out = mkOut (parts.map Seg.seg) htmls tail := by
  unfold highlight at h
  obtain ⟨htmls, hlen, hout⟩ :=
    go_doc render ss theme parts tail hparts htail _ _ _ h
  exact ⟨htmls, hlen, by simpa using hout⟩

/-- Claim C6: if the engine fails on the accumulated buffer of a code block,
the whole call aborts with the wrapped engine error and no event sequence is
returned, not even the events already processed before the failing block. -/
theorem C6_abort (pre : List Event) (hpre : codeFree pre = true)
    (k ek : CodeBlockKind) (ts : List String) (post : List Event) (e : eps)
    (hr : render (concatTexts ts) ss
            (resolveKind ss ss.find_syntax_plain_text k) theme
          = Except.error e) :
    highlight render ss theme
        (pre ++ Event.Start k :: (ts.map Event.Text ++ (Event.End ek :: post)))
      = HResult.err (Error.HighlightError e) := by
  unfold highlight
  rw [go_passthrough render ss theme pre hpre,
      go_block_err render ss theme k ek ts _ _ _ e hr]

/-- Claim C7: an End event reached with no open code block aborts the
process unconditionally (the Rust panic), not via a recoverable error value;
and on any well-formed input, where every End is preceded by a matching
unclosed Start, that abort branch is unreachable. -/
theorem C7_panic (pre : List Event) (hpre : codeFree pre = true)
    (k : CodeBlockKind) (rest events : List Event)
    (hwf : noUnmatchedEnd false events = true) :
    highlight render ss theme (pre ++ Event.End k :: rest) = HResult.fatal ∧
    highlight render ss theme events ≠ HResult.fatal := by
  constructor
  · unfold highlight
    rw [go_passthrough render ss theme pre hpre, go_end_false]
  · exact go_no_fatal render ss theme events false _ _ _ hwf

/-- Claim C8: when the input ends while a code block is still open, the call
returns Ok with the output accumulated before the block: the buffered text
is dropped silently, no Html event is emitted for the unterminated block,
and no error is raised. -/
theorem C8_unterminated (pre : List Event) (hpre : codeFree pre = true)
    (k : CodeBlockKind) (ts : List String) :
    highlight render ss theme (pre ++ Event.Start k :: ts.map Event.Text)
      = HResult.ok pre := by
  unfold highlight
  rw [go_passthrough render ss theme pre hpre, go_start]
  have h2 := go_texts render ss theme ts
    (resolveKind ss ss.find_syntax_plain_text k) "" ([] ++ pre) []
  rw [List.append_nil] at h2
  rw [h2, go_nil]
  simp

/-- Claim C9: the kind annotation carried by an End event is ignored: it is
never checked against the kind of the matching Start, so replacing the kind
of any End event leaves the whole transform result unchanged; in particular
a Fenced start closed by an Indented end is processed without error. -/
theorem C9_end_kind_ignored (pre : List Event) (k1 k2 : CodeBlockKind)
    (post : List Event) :
    highlight render ss theme (pre ++ Event.End k1 :: post)
      = highlight render ss theme (pre ++ Event.End k2 :: post) := by
  unfold highlight
  exact go_end_kind render ss theme pre false _ "" [] k1 k2 post

/-- Claim C10: the transform never returns the InvalidTheme error variant,
whatever the engine, registry, theme, or input: the only error it can
produce through this entry point is the wrapped engine error. -/
theorem C10_no_invalid_theme (events : List Event) (name : String) :
    highlight render ss theme events
      ≠ HResult.err (Error.InvalidTheme name) := by
  unfold highlight
  exact go_no_invalid_theme render ss theme events false _ "" [] name

end Lemmas

/-- Witness for C1: the spec scenario, with the python block rendered by the
recording engine. -/
theorem C1_substitution_witness :
    highlight demoRender demoSS 0
        ([Event.Text "intro"] ++ Event.Start (CodeBlockKind.Fenced "python") ::
          ((["print(1)"].map Event.Text) ++
            (Event.End (CodeBlockKind.Fenced "python") :: [Event.Text "outro"])))
      = HResult.ok ([Event.Text "intro"] ++
          Event.Html "<pre>python-def:print(1)</pre>" :: [Event.Text "outro"]) :=
  C1_substitution demoRender demoSS 0 [Event.Text "intro"] [Event.Text "outro"]
    (by decide) (by decide) (CodeBlockKind.Fenced "python")
    (CodeBlockKind.Fenced "python") ["print(1)"]
    "<pre>python-def:print(1)</pre>" rfl

/-- Counterexample to C2 as stated: after a first block resolves python, a
second block whose token zzz is absent from the registry is rendered with the
python definition, not with the plain-text default the claim requires. -/
theorem C2_counterexample :
    demoSS.find_syntax_by_token "zzz" = none ∧
    highlight demoRender demoSS 0 leakInput
      = HResult.ok [Event.Html "<pre>python-def:</pre>",
          Event.Html "<pre>python-def:x=1</pre>"] ∧
    highlight demoRender demoSS 0 leakInput
      ≠ HResult.ok [Event.Html "<pre>python-def:</pre>",
          Event.Html "<pre>plain-def:x=1</pre>"] :=
  ⟨by decide, by decide, by decide⟩

/-- Witness for the amended C2 at the concrete leaking pair of blocks. -/
theorem C2_amended_leak_witness :
    highlight demoRender demoSS 0
        (([] : List Event) ++ Event.Start (CodeBlockKind.Fenced "python") ::
          (([] : List String).map Event.Text ++
            (Event.End (CodeBlockKind.Fenced "python") ::
              (([] : List Event) ++ Event.Start (CodeBlockKind.Fenced "zzz") ::
                ((["x=1"].map Event.Text) ++
                  (Event.End (CodeBlockKind.Fenced "zzz") ::
                    ([] : List Event)))))))
      = HResult.ok (([] : List Event) ++ Event.Html "<pre>python-def:</pre>" ::
          (([] : List Event) ++
            Event.Html "<pre>python-def:x=1</pre>" :: ([] : List Event))) :=
  C2_amended_leak demoRender demoSS 0 [] [] [] (by decide) (by decide)
    (by decide) (CodeBlockKind.Fenced "python") (CodeBlockKind.Fenced "python")
    (CodeBlockKind.Fenced "zzz") (CodeBlockKind.Fenced "zzz") [] ["x=1"]
    (by
      intro lang hl
      injection hl with h
      rw [← h]
      decide)
    "<pre>python-def:</pre>" "<pre>python-def:x=1</pre>" rfl rfl

/-- Witness for C3: the token zzz is absent, and the block is rendered with
the plain-text default. -/
theorem C3_fallback_witness :
    highlight demoRender demoSS 0
        (([] : List Event) ++ Event.Start (CodeBlockKind.Fenced "zzz") ::
          ((["x=1"].map Event.Text) ++
            (Event.End (CodeBlockKind.Fenced "zzz") :: ([] : List Event))))
      = HResult.ok (([] : List Event) ++
          Event.Html "<pre>plain-def:x=1</pre>" :: ([] : List Event)) :=
  C3_fallback demoRender demoSS 0 [] [] (by decide) (by decide) "zzz"
    (by decide) (CodeBlockKind.Fenced "zzz") ["x=1"]
    "<pre>plain-def:x=1</pre>" rfl

/-- Witness for C4 on a code-free input mixing Text, Other and Html
events. -/
theorem C4_passthrough_witness :
    highlight demoRender demoSS 0
        [Event.Text "a", Event.Other 3, Event.Html "h"]
      = HResult.ok [Event.Text "a", Event.Other 3, Event.Html "h"] :=
  C4_passthrough demoRender demoSS 0
    [Event.Text "a", Event.Other 3, Event.Html "h"] (by decide)

/-- Witness for C5 on a one-segment, one-block document with a trailing
segment. -/
theorem C5_frame_witness :
    ∃ htmls : List String,
      htmls.length = ([⟨[Event.Text "a"], CodeBlockKind.Fenced "python",
                        CodeBlockKind.Indented, ["x"]⟩] : List Seg).length ∧
      ([Event.Text "a", Event.Html "<pre>python-def:x</pre>",
        Event.Other 7] : List Event)
        = mkOut (([⟨[Event.Text "a"], CodeBlockKind.Fenced "python",
                     CodeBlockKind.Indented, ["x"]⟩] : List Seg).map Seg.seg)
            htmls [Event.Other 7] :=
  C5_frame demoRender demoSS 0
    [⟨[Event.Text "a"], CodeBlockKind.Fenced "python",
      CodeBlockKind.Indented, ["x"]⟩]
    [Event.Other 7] (by decide) (by decide)
    [Event.Text "a", Event.Html "<pre>python-def:x</pre>", Event.Other 7]
    (by decide)

/-- Witness for C6 with the always-failing engine: the whole call aborts and
the Text event before the block is not returned. -/
theorem C6_abort_witness :
    highlight failRender demoSS 0
        ([Event.Text "intro"] ++ Event.Start (CodeBlockKind.Fenced "python") ::
          ((["x"].map Event.Text) ++
            (Event.End CodeBlockKind.Indented :: [Event.Other 1])))
      = HResult.err (Error.HighlightError 42) :=
  C6_abort failRender demoSS 0 [Event.Text "intro"] (by decide)
    (CodeBlockKind.Fenced "python") CodeBlockKind.Indented ["x"]
    [Event.Other 1] 42 rfl

/-- Witness for C7: a bare End event aborts, and a matched Start then End
does not. -/
theorem C7_panic_witness :
    highlight demoRender demoSS 0
        (([] : List Event) ++ Event.End CodeBlockKind.Indented ::
          ([] : List Event))
      = HResult.fatal ∧
    highlight demoRender demoSS 0
        [Event.Start CodeBlockKind.Indented, Event.End CodeBlockKind.Indented]
      ≠ HResult.fatal :=
  C7_panic demoRender demoSS 0 [] (by decide) CodeBlockKind.Indented []
    [Event.Start CodeBlockKind.Indented, Event.End CodeBlockKind.Indented]
    (by decide)

/-- Witness for C8: an unterminated block drops its buffered text and
returns only the events before the Start. -/
theorem C8_unterminated_witness :
    highlight demoRender demoSS 0
        ([Event.Text "a"] ++ Event.Start (CodeBlockKind.Fenced "python") ::
          (["q"].map Event.Text))
      = HResult.ok [Event.Text "a"] :=
  C8_unterminated demoRender demoSS 0 [Event.Text "a"] (by decide)
    (CodeBlockKind.Fenced "python") ["q"]

end HighlightPulldown
